import Mathlib

/-!
Shallow embedding of grbl's limits.c (homing cycle) and proofs about it.

The embedding mirrors the C source:
* 8-bit hardware registers and masks are modelled as `Nat` values; the C
  bitwise operators `&`, `|`, `^`, `~mask` (under `&`) become `&&&`, `|||`,
  `^^^`, `Nat.ldiff`; `uint8_t` counter increment becomes `% 256`.
* The bit positions `X_STEP_BIT`, ..., `DIRECTION_MASK`, `STEP_MASK`,
  `LIMIT_MASK` come from config.h, which is not part of this fragment; they
  are carried as fields of a `Config` record, with the well-formedness facts
  config.h guarantees (distinct step bits, step bits inside `STEP_MASK` and
  outside `DIRECTION_MASK`) packaged as `Config.WF`.
* `settings` fields used by limits.c are carried in a `Settings` record.
  C `double` arithmetic (feed rates, steps per mm) is modelled as exact
  rational arithmetic.
* The infinite `for(;;)` pulse loop of `homing_cycle` becomes a step
  function `homing_iter` (one loop iteration: sample processing and
  per-axis debounce) plus `emit` (the two stepping-port writes), iterated
  by `homing_state` over a stream `pins : Nat → Nat` of raw `LIMIT_PIN`
  samples, one per iteration.  Loop exit (`return`) is modelled by the
  predicate `homing_done` checked between debounce and emission, exactly
  where the C checks it.
* `limits_go_home` is modelled as the list of externally visible actions it
  performs, in order, plus its final write to `sys.position`.
-/

/-- The four machine axes of this grbl fork. -/
inductive Axis where
  | X | Y | Z | C
deriving DecidableEq, Fintype

/-- Bit positions and masks provided by config.h (not part of this source
fragment): step bit and limit bit of each axis, and the three masks. -/
structure Config where
  X_STEP_BIT : Nat
  Y_STEP_BIT : Nat
  Z_STEP_BIT : Nat
  C_STEP_BIT : Nat
  X_LIMIT_BIT : Nat
  Y_LIMIT_BIT : Nat
  Z_LIMIT_BIT : Nat
  C_LIMIT_BIT : Nat
  DIRECTION_MASK : Nat
  STEP_MASK : Nat
  LIMIT_MASK : Nat
deriving DecidableEq

/-- The step bit of an axis. -/
def Config.stepBit (cfg : Config) : Axis → Nat
  | Axis.X => cfg.X_STEP_BIT
  | Axis.Y => cfg.Y_STEP_BIT
  | Axis.Z => cfg.Z_STEP_BIT
  | Axis.C => cfg.C_STEP_BIT

/-- The limit-input bit of an axis. -/
def Config.limitBit (cfg : Config) : Axis → Nat
  | Axis.X => cfg.X_LIMIT_BIT
  | Axis.Y => cfg.Y_LIMIT_BIT
  | Axis.Z => cfg.Z_LIMIT_BIT
  | Axis.C => cfg.C_LIMIT_BIT

/-- Well-formedness facts guaranteed by config.h: the four step bits are
distinct, each step bit is inside `STEP_MASK`, and no step bit is a
direction bit. -/
def Config.WF (cfg : Config) : Prop :=
  (∀ a b : Axis, cfg.stepBit a = cfg.stepBit b → a = b)
  ∧ (∀ a : Axis, Nat.testBit cfg.STEP_MASK (cfg.stepBit a) = true)
  ∧ (∀ a : Axis, Nat.testBit cfg.DIRECTION_MASK (cfg.stepBit a) = false)

/-- The fields of the global `settings` record that limits.c reads.
`double` fields are modelled as exact rationals. -/
structure Settings where
  pulse_microseconds : Nat
  invert_mask_stepdir : Nat
  invert_mask_limit : Nat
  default_seek_rate : ℚ
  default_feed_rate : ℚ
  steps_per_mm_x : ℚ

/-- The mutable state of one `homing_cycle` call: the four `*_axis` flags
and `*_limit_count` counters, the `out_bits` working byte, and the
stepping output port `STEPPING_PORT`. -/
structure HState where
  x_axis : Bool
  y_axis : Bool
  z_axis : Bool
  c_axis : Bool
  x_limit_count : Nat
  y_limit_count : Nat
  z_limit_count : Nat
  c_limit_count : Nat
  out_bits : Nat
  port : Nat
deriving DecidableEq

/-- The active flag of an axis. -/
def HState.active (st : HState) : Axis → Bool
  | Axis.X => st.x_axis
  | Axis.Y => st.y_axis
  | Axis.Z => st.z_axis
  | Axis.C => st.c_axis

/-- The debounce counter of an axis. -/
def HState.count (st : HState) : Axis → Nat
  | Axis.X => st.x_limit_count
  | Axis.Y => st.y_limit_count
  | Axis.Z => st.z_limit_count
  | Axis.C => st.c_limit_count

/-- Which axes were requested for the pass (the `x_axis .. c_axis`
arguments of `homing_cycle`). -/
def requested (x y z c : Bool) : Axis → Bool
  | Axis.X => x
  | Axis.Y => y
  | Axis.Z => z
  | Axis.C => c

/-- Lines 62-71 of limits.c: read `LIMIT_PIN`, XOR with `LIMIT_MASK` when
this is a reverse pass, then XOR with the global limit invert mask. -/
def processed_limit_bits (cfg : Config) (s : Settings) (reverse_direction : Bool)
    (raw : Nat) : Nat :=
  (if reverse_direction then raw ^^^ cfg.LIMIT_MASK else raw) ^^^ s.invert_mask_limit

/-- One per-axis debounce block of the pulse loop (lines 73-84 and its three
copies): when the axis is still active, increment its `uint8_t` counter if
its limit bit reads clear, reset it to 0 if set; once the counter reaches
10, clear the axis flag and toggle the axis's step bit out of `out_bits`.
Returns (axis flag, counter, out_bits). -/
def axis_debounce (LIMIT_BIT STEP_BIT : Nat) (limit_bits : Nat)
    (ax : Bool) (count ob : Nat) : Bool × Nat × Nat :=
  if ax then
    let count := if limit_bits &&& (1 <<< LIMIT_BIT) = 0 then (count + 1) % 256 else 0
    if 10 ≤ count then (false, count, ob ^^^ (1 <<< STEP_BIT))
    else (true, count, ob)
  else (ax, count, ob)

/-- The debounce half of one pulse-loop iteration (lines 62-120): process
the sampled limit byte and run the four per-axis debounce blocks in source
order, threading `out_bits` through them.  The port is untouched here. -/
def homing_iter (cfg : Config) (s : Settings) (reverse_direction : Bool)
    (st : HState) (raw : Nat) : HState :=
  let limit_bits := processed_limit_bits cfg s reverse_direction raw
  let rx := axis_debounce cfg.X_LIMIT_BIT cfg.X_STEP_BIT limit_bits st.x_axis st.x_limit_count st.out_bits
  let ry := axis_debounce cfg.Y_LIMIT_BIT cfg.Y_STEP_BIT limit_bits st.y_axis st.y_limit_count rx.2.2
  let rz := axis_debounce cfg.Z_LIMIT_BIT cfg.Z_STEP_BIT limit_bits st.z_axis st.z_limit_count ry.2.2
  let rc := axis_debounce cfg.C_LIMIT_BIT cfg.C_STEP_BIT limit_bits st.c_axis st.c_limit_count rz.2.2
  { x_axis := rx.1, x_limit_count := rx.2.1
    y_axis := ry.1, y_limit_count := ry.2.1
    z_axis := rz.1, z_limit_count := rz.2.1
    c_axis := rc.1, c_limit_count := rc.2.1
    out_bits := rc.2.2, port := st.port }

/-- Line 123: the loop returns when no axis is active any more. -/
def homing_done (st : HState) : Bool :=
  !(st.x_axis || st.y_axis || st.z_axis || st.c_axis)

/-- Line 126: `STEPPING_PORT = (STEPPING_PORT & ~STEP_MASK) | (out_bits & STEP_MASK)`. -/
def emit_assert (cfg : Config) (st : HState) : HState :=
  { st with port := Nat.ldiff st.port cfg.STEP_MASK ||| (st.out_bits &&& cfg.STEP_MASK) }

/-- Line 128: `STEPPING_PIN = (out_bits & STEP_MASK)` — on AVR, writing a 1
bit to the PIN register toggles the corresponding PORT bit. -/
def emit_toggle (cfg : Config) (st : HState) : HState :=
  { st with port := st.port ^^^ (st.out_bits &&& cfg.STEP_MASK) }

/-- Lines 126-128: the step-pulse emission of one loop iteration. -/
def emit (cfg : Config) (st : HState) : HState :=
  emit_toggle cfg (emit_assert cfg st)

/-- The step bits that participate in an emission: `out_bits & STEP_MASK`,
the byte both written to `STEPPING_PORT` and toggled via `STEPPING_PIN`. -/
def emitted_step_bits (cfg : Config) (st : HState) : Nat :=
  st.out_bits &&& cfg.STEP_MASK

/-- An axis receives a step pulse in an emission iff its step bit is set in
`emitted_step_bits`: exactly then does its port line change (it is driven
to 1 by the masked write and back to 0 by the toggle); a clear bit leaves
the line constantly 0. -/
def axis_pulsed (cfg : Config) (st : HState) (a : Axis) : Bool :=
  Nat.testBit (emitted_step_bits cfg st) (cfg.stepBit a)

/-- The bit of the global step/direction invert mask at an axis's step
position. -/
def step_invert_bit (cfg : Config) (s : Settings) (a : Axis) : Bool :=
  Nat.testBit s.invert_mask_stepdir (cfg.stepBit a)

/-- Lines 40-54: build `out_bits` — direction mask, OR in the step bit of
each requested axis, XOR the direction mask on a reverse pass, then XOR the
global step/direction invert mask. -/
def homing_out_bits (cfg : Config) (s : Settings)
    (x_axis y_axis z_axis c_axis reverse_direction : Bool) : Nat :=
  let ob := cfg.DIRECTION_MASK
  let ob := if x_axis then ob ||| (1 <<< cfg.X_STEP_BIT) else ob
  let ob := if y_axis then ob ||| (1 <<< cfg.Y_STEP_BIT) else ob
  let ob := if z_axis then ob ||| (1 <<< cfg.Z_STEP_BIT) else ob
  let ob := if c_axis then ob ||| (1 <<< cfg.C_STEP_BIT) else ob
  let ob := if reverse_direction then ob ^^^ cfg.DIRECTION_MASK else ob
  ob ^^^ s.invert_mask_stepdir

/-- Line 39: `uint32_t step_delay = microseconds_per_pulse - settings.pulse_microseconds`,
an unchecked unsigned 32-bit subtraction. -/
def step_delay (microseconds_per_pulse pulse_microseconds : Nat) : Nat :=
  (microseconds_per_pulse + 2 ^ 32 - pulse_microseconds) % 2 ^ 32

/-- The state of `homing_cycle` on entry to the pulse loop (lines 38-60):
requested axes active, all four counters 0, `out_bits` built as above, and
the direction bits of `out_bits` written to the stepping port with a masked
update (line 58). -/
def homing_init (cfg : Config) (s : Settings)
    (x_axis y_axis z_axis c_axis reverse_direction : Bool) (port0 : Nat) : HState :=
  let ob := homing_out_bits cfg s x_axis y_axis z_axis c_axis reverse_direction
  { x_axis := x_axis, y_axis := y_axis, z_axis := z_axis, c_axis := c_axis
    x_limit_count := 0, y_limit_count := 0, z_limit_count := 0, c_limit_count := 0
    out_bits := ob
    port := Nat.ldiff port0 cfg.DIRECTION_MASK ||| (ob &&& cfg.DIRECTION_MASK) }

/-- `n` iterations of the pulse loop over the raw sample stream `pins`:
each iteration debounces sample `n`, then either returns (when all axes
have stopped — no port write) or emits the step pulse. -/
def homing_state (cfg : Config) (s : Settings) (reverse_direction : Bool)
    (pins : Nat → Nat) (st0 : HState) : Nat → HState
  | 0 => st0
  | n + 1 =>
    let st := homing_iter cfg s reverse_direction
      (homing_state cfg s reverse_direction pins st0 n) (pins n)
    if homing_done st then st else emit cfg st

/-- One full `homing_cycle` call: initial state from the arguments, then
the pulse loop over the sample stream. -/
def homing_run (cfg : Config) (s : Settings)
    (x_axis y_axis z_axis c_axis reverse_direction : Bool)
    (pins : Nat → Nat) (port0 : Nat) : Nat → HState :=
  homing_state cfg s reverse_direction pins
    (homing_init cfg s x_axis y_axis z_axis c_axis reverse_direction port0)

/-- The pulse loop reaches its `return`: after some iteration's debounce
phase no axis is active. -/
def homing_terminates (cfg : Config) (s : Settings)
    (x_axis y_axis z_axis c_axis reverse_direction : Bool)
    (pins : Nat → Nat) (port0 : Nat) : Prop :=
  ∃ n, homing_done (homing_run cfg s x_axis y_axis z_axis c_axis reverse_direction pins port0 (n + 1)) = true

/-- The processed ("triggered") limit reading of one axis at iteration `i`:
the axis's limit bit of the processed sample byte. -/
def triggered (cfg : Config) (s : Settings) (reverse_direction : Bool)
    (pins : Nat → Nat) (a : Axis) (i : Nat) : Bool :=
  Nat.testBit (processed_limit_bits cfg s reverse_direction (pins i)) (cfg.limitBit a)

/-- Single-axis abstraction of one debounce block: the (flag, counter) part
of `axis_debounce`, with the limit-bit test abstracted to a Bool. -/
def axis_debounce_step (trig : Bool) (st : Bool × Nat) : Bool × Nat :=
  if st.1 then
    let c := if trig then 0 else (st.2 + 1) % 256
    if 10 ≤ c then (false, c) else (true, c)
  else st

/-- The (flag, counter) evolution of a single axis over a triggered-bit
stream, starting from (requested, 0). -/
def axisRun (req : Bool) (trig : Nat → Bool) : Nat → Bool × Nat
  | 0 => (req, 0)
  | n + 1 => axis_debounce_step (trig n) (axisRun req trig n)

/-- Lines 138-139: `FEEDRATE_TO_PERIOD_US(f)` =
`(60.0 / ((f) * settings.steps_per_mm[X_AXIS])) * 1000000.0`, C doubles
modelled as exact rationals. -/
def FEEDRATE_TO_PERIOD_US (s : Settings) (f : ℚ) : ℚ :=
  60 / (f * s.steps_per_mm_x) * 1000000

/-- The externally visible actions of `limits_go_home`, in order. -/
inductive HomingAction where
  | plan_synchronize
  | st_enable
  | homing_cycle (x_axis y_axis z_axis c_axis reverse_direction : Bool)
      (microseconds_per_pulse : ℚ)
  | set_machine_zero
deriving DecidableEq

/-- Lines 141-143: an approach pass — forward direction, period from the
seek rate. -/
def approach_limit_switch (s : Settings) (x y z c : Bool) : HomingAction :=
  HomingAction.homing_cycle x y z c false (FEEDRATE_TO_PERIOD_US s s.default_seek_rate)

/-- Lines 145-147: a retreat pass — reverse direction, period from the feed
rate. -/
def leave_limit_switch (s : Settings) (x y z c : Bool) : HomingAction :=
  HomingAction.homing_cycle x y z c true (FEEDRATE_TO_PERIOD_US s s.default_feed_rate)

/-- The machine-position vector `sys.position`. -/
structure SysPosition where
  x : Int
  y : Int
  z : Int
  c : Int
deriving DecidableEq

/-- Lines 149-175, `limits_go_home`: synchronize the planner, enable the
steppers, approach with Z alone, approach with X, Y and C, retreat with all
homed axes, then write 0 to all four coordinates of `sys.position`
(line 174).  The `home_*` flags are the `HOME_*` config.h switches.
Returns the action trace and the final position. -/
def limits_go_home_run (s : Settings) (home_x home_y home_z home_c : Bool)
    (pos0 : SysPosition) : List HomingAction × SysPosition :=
  ([HomingAction.plan_synchronize,
    HomingAction.st_enable,
    approach_limit_switch s false false home_z false,
    approach_limit_switch s home_x home_y false home_c,
    leave_limit_switch s home_x home_y home_z home_c,
    HomingAction.set_machine_zero],
   { pos0 with x := 0, y := 0, z := 0, c := 0 })

/-- A concrete config.h instance used for witnesses and counterexamples:
step bits 0-3, direction bits 4-7, limit bits 0-3. -/
def testCfg : Config :=
  { X_STEP_BIT := 0, Y_STEP_BIT := 1, Z_STEP_BIT := 2, C_STEP_BIT := 3
    X_LIMIT_BIT := 0, Y_LIMIT_BIT := 1, Z_LIMIT_BIT := 2, C_LIMIT_BIT := 3
    DIRECTION_MASK := 240, STEP_MASK := 15, LIMIT_MASK := 15 }

/-- Concrete settings with both invert masks zero. -/
def testS0 : Settings :=
  { pulse_microseconds := 10, invert_mask_stepdir := 0, invert_mask_limit := 0
    default_seek_rate := 100, default_feed_rate := 50, steps_per_mm_x := 80 }

/-- Concrete settings whose step/direction invert mask holds Y's step bit. -/
def testS2 : Settings :=
  { pulse_microseconds := 10, invert_mask_stepdir := 2, invert_mask_limit := 0
    default_seek_rate := 100, default_feed_rate := 50, steps_per_mm_x := 80 }

/-- A raw sample stream in which X's limit input is constantly engaged and
the other limit inputs are constantly clear. -/
def cexPins : Nat → Nat := fun _ => 1

/-- A raw sample stream in which X's limit input is clear for samples 0-8,
engaged exactly at sample 9, and clear again afterwards. -/
def wPins : Nat → Nat := fun i => if i = 9 then 1 else 0

/-- Bridge between the C test `(limit_bits & (1 << b)) == 0` and `testBit`. -/
theorem and_one_shift_eq_zero (lb li : Nat) :
    (lb &&& (1 <<< li) = 0) ↔ Nat.testBit lb li = false := by
  rw [Nat.shiftLeft_eq, one_mul, Nat.and_two_pow]
  cases h : Nat.testBit lb li <;> simp [h, Nat.pow_eq_zero]

/-- The single set bit of `1 << k`. -/
theorem testBit_one_shift (k j : Nat) : Nat.testBit (1 <<< k) j = decide (k = j) := by
  rw [Nat.shiftLeft_eq, one_mul]
  rcases eq_or_ne k j with h | h
  · subst h; simp
  · simp [Nat.testBit_two_pow_of_ne h, h]

/-- The (flag, counter) part of `axis_debounce` is the single-axis step on
the axis's processed limit bit; `out_bits` does not influence it. -/
theorem axis_debounce_proj (li si lb : Nat) (ax : Bool) (c ob : Nat) :
    ((axis_debounce li si lb ax c ob).1, (axis_debounce li si lb ax c ob).2.1)
      = axis_debounce_step (Nat.testBit lb li) (ax, c) := by
  cases ax
  · simp [axis_debounce, axis_debounce_step]
  · cases h : Nat.testBit lb li
    · have hz : lb &&& (1 <<< li) = 0 := (and_one_shift_eq_zero lb li).mpr h
      by_cases h10 : 10 ≤ (c + 1) % 256 <;>
        simp [axis_debounce, axis_debounce_step, hz, h, h10]
    · have hnz : ¬(lb &&& (1 <<< li) = 0) := fun hz => by
        simp [(and_one_shift_eq_zero lb li).mp hz] at h
      simp [axis_debounce, axis_debounce_step, hnz, h]

/-- How one debounce block changes a bit of `out_bits`: the bit at `j`
flips exactly when the block stops its axis (flag goes true → false) and
`j` is that axis's step bit. -/
theorem axis_debounce_out_bits (li si lb : Nat) (ax : Bool) (c ob : Nat) (j : Nat) :
    Nat.testBit (axis_debounce li si lb ax c ob).2.2 j
      = Bool.xor (Nat.testBit ob j)
          (Bool.xor ax (axis_debounce li si lb ax c ob).1 && decide (si = j)) := by
  cases ax
  · simp [axis_debounce]
  · by_cases hz : lb &&& (1 <<< li) = 0 <;>
      simp only [axis_debounce, hz, if_true, if_false, ite_true, ite_false] <;>
      split <;>
      simp only [Nat.testBit_xor, testBit_one_shift] <;>
      simp [Bool.xor_comm]

/-- Unfolding of one `axisRun` step. -/
theorem axisRun_succ (req : Bool) (trig : Nat → Bool) (n : Nat) :
    axisRun req trig (n + 1) = axis_debounce_step (trig n) (axisRun req trig n) := rfl

/-- Counter bounds: never above 10, and at most 9 while the axis is active. -/
theorem axisRun_bound (req : Bool) (trig : Nat → Bool) (n : Nat) :
    (axisRun req trig n).2 ≤ 10
      ∧ ((axisRun req trig n).1 = true → (axisRun req trig n).2 ≤ 9) := by
  induction n with
  | zero => simp [axisRun]
  | succ n ih =>
    rcases hs : axisRun req trig n with ⟨a, c⟩
    rw [hs] at ih
    cases a
    · simpa [axisRun_succ, hs, axis_debounce_step] using ih
    · have hc : c ≤ 9 := ih.2 rfl
      have hmod : (c + 1) % 256 = c + 1 := Nat.mod_eq_of_lt (by omega)
      cases htr : trig n
      · by_cases h10 : 10 ≤ c + 1 <;>
          simp [axisRun_succ, hs, axis_debounce_step, htr, hmod, h10] <;> omega
      · simp [axisRun_succ, hs, axis_debounce_step, htr]

/-- A never-requested axis stays inactive with counter 0. -/
theorem axisRun_false_req (trig : Nat → Bool) (n : Nat) :
    axisRun false trig n = (false, 0) := by
  induction n with
  | zero => rfl
  | succ n ih => simp [axisRun_succ, ih, axis_debounce_step]

/-- Once an axis is inactive its state is frozen. -/
theorem axisRun_frozen (req : Bool) (trig : Nat → Bool) {n : Nat}
    (h : (axisRun req trig n).1 = false) (m : Nat) :
    axisRun req trig (n + m) = axisRun req trig n := by
  induction m with
  | zero => rfl
  | succ m ih =>
    rw [show n + (m + 1) = (n + m) + 1 from rfl, axisRun_succ, ih]
    rcases hs : axisRun req trig n with ⟨a, c⟩
    rw [hs] at h
    simp only [] at h
    simp [axis_debounce_step, h]

/-- An axis active at `n` was active at every earlier iteration. -/
theorem axisRun_active_mono (req : Bool) (trig : Nat → Bool) {m n : Nat}
    (hmn : m ≤ n) (h : (axisRun req trig n).1 = true) :
    (axisRun req trig m).1 = true := by
  by_contra hm
  have hm' : (axisRun req trig m).1 = false := by
    cases hx : (axisRun req trig m).1
    · rfl
    · exact absurd hx hm
  obtain ⟨k, rfl⟩ := Nat.le.dest hmn
  rw [axisRun_frozen req trig hm' k] at h
  rw [hm'] at h
  exact Bool.false_ne_true h

/-- While an axis is active, its counter equals the length of the run of
consecutive "not triggered" samples immediately before the current
iteration (and in particular is at most the iteration index). -/
theorem axisRun_window (req : Bool) (trig : Nat → Bool) (n : Nat)
    (h : (axisRun req trig n).1 = true) :
    (axisRun req trig n).2 ≤ n
      ∧ ∀ j, j < (axisRun req trig n).2 → trig (n - 1 - j) = false := by
  induction n with
  | zero => simp [axisRun]
  | succ n ih =>
    have ha : (axisRun req trig n).1 = true :=
      axisRun_active_mono req trig (Nat.le_succ n) h
    obtain ⟨ihle, ihw⟩ := ih ha
    have hc9 : (axisRun req trig n).2 ≤ 9 := (axisRun_bound req trig n).2 ha
    rcases hs : axisRun req trig n with ⟨a, c⟩
    rw [hs] at ha ihle ihw hc9
    simp only [] at ha ihle ihw hc9
    subst ha
    cases htr : trig n
    · have hmod : (c + 1) % 256 = c + 1 := Nat.mod_eq_of_lt (by omega)
      have h10 : ¬ 10 ≤ c + 1 := by
        intro h10
        rw [axisRun_succ, hs] at h
        simp [axis_debounce_step, htr, hmod, h10] at h
      have hstep : axisRun req trig (n + 1) = (true, c + 1) := by
        rw [axisRun_succ, hs]
        simp [axis_debounce_step, htr, hmod, h10]
      rw [hstep]
      refine ⟨by show c + 1 ≤ n + 1; omega, ?_⟩
      intro j hj
      have hj' : j < c + 1 := hj
      match j with
      | 0 => simpa using htr
      | j + 1 =>
        have hje := ihw j (by omega)
        have hidx : n + 1 - 1 - (j + 1) = n - 1 - j := by omega
        rw [hidx]
        exact hje
    · have hstep : axisRun req trig (n + 1) = (true, 0) := by
        rw [axisRun_succ, hs]
        simp [axis_debounce_step, htr]
      rw [hstep]
      refine ⟨by show 0 ≤ n + 1; omega, ?_⟩
      intro j hj
      have hj' : j < 0 := hj
      omega

/-- If a (requested) axis has gone inactive by iteration `n`, then some 10
consecutive samples before `n` all read "not triggered". -/
theorem axisRun_stop_window (trig : Nat → Bool) (n : Nat)
    (h : (axisRun true trig n).1 = false) :
    ∃ k, k + 10 ≤ n ∧ ∀ j, j < 10 → trig (k + j) = false := by
  induction n with
  | zero => simp [axisRun] at h
  | succ n ih =>
    cases ha : (axisRun true trig n).1
    · obtain ⟨k, hk, hw⟩ := ih ha
      exact ⟨k, by omega, hw⟩
    · have hc9 : (axisRun true trig n).2 ≤ 9 := (axisRun_bound true trig n).2 ha
      obtain ⟨hle, hw⟩ := axisRun_window true trig n ha
      rcases hs : axisRun true trig n with ⟨a, c⟩
      rw [hs] at ha hc9 hle hw
      simp only [] at ha hc9 hle hw
      subst ha
      cases htr : trig n
      · have hmod : (c + 1) % 256 = c + 1 := Nat.mod_eq_of_lt (by omega)
        by_cases h10 : 10 ≤ c + 1
        · have hc : c = 9 := by omega
          subst hc
          refine ⟨n - 9, by omega, ?_⟩
          intro j hj
          rcases Nat.lt_or_ge j 9 with hj9 | hj9
          · have hje := hw (8 - j) (by omega)
            have hidx : n - 1 - (8 - j) = n - 9 + j := by omega
            rw [hidx] at hje
            exact hje
          · have hj9' : j = 9 := by omega
            subst hj9'
            have hidx : n - 9 + 9 = n := by omega
            rw [hidx]
            exact htr
        · exfalso
          rw [axisRun_succ, hs] at h
          simp [axis_debounce_step, htr, hmod, h10] at h
      · exfalso
        rw [axisRun_succ, hs] at h
        simp [axis_debounce_step, htr] at h

/-- Conversely, 10 consecutive "not triggered" samples stop the axis (for
any request flag), from the end of that window onwards. -/
theorem axisRun_window_stop (req : Bool) (trig : Nat → Bool) (k : Nat)
    (hw : ∀ j, j < 10 → trig (k + j) = false) :
    ∀ n, k + 10 ≤ n → (axisRun req trig n).1 = false := by
  have key : ∀ j, j ≤ 10 →
      (axisRun req trig (k + j)).1 = false
        ∨ ((axisRun req trig (k + j)).1 = true ∧ j ≤ (axisRun req trig (k + j)).2) := by
    intro j
    induction j with
    | zero =>
      intro _
      cases hx : (axisRun req trig k).1
      · exact Or.inl hx
      · exact Or.inr ⟨hx, Nat.zero_le _⟩
    | succ j ih =>
      intro hj10
      rcases ih (by omega) with hin | ⟨hact, hcnt⟩
      · left
        have hfr := axisRun_frozen req trig hin 1
        rw [show k + (j + 1) = (k + j) + 1 from rfl, hfr]
        exact hin
      · have htr : trig (k + j) = false := hw j (by omega)
        have hc9 : (axisRun req trig (k + j)).2 ≤ 9 :=
          (axisRun_bound req trig (k + j)).2 hact
        rcases hs : axisRun req trig (k + j) with ⟨a, c⟩
        rw [hs] at hact hcnt hc9
        simp only [] at hact hcnt hc9
        subst hact
        have hmod : (c + 1) % 256 = c + 1 := Nat.mod_eq_of_lt (by omega)
        by_cases h10 : 10 ≤ c + 1
        · left
          have hstep : axisRun req trig ((k + j) + 1) = (false, c + 1) := by
            rw [axisRun_succ, hs]
            simp [axis_debounce_step, htr, hmod, h10]
          rw [show k + (j + 1) = (k + j) + 1 from rfl, hstep]
        · right
          have hstep : axisRun req trig ((k + j) + 1) = (true, c + 1) := by
            rw [axisRun_succ, hs]
            simp [axis_debounce_step, htr, hmod, h10]
          rw [show k + (j + 1) = (k + j) + 1 from rfl, hstep]
          refine ⟨rfl, ?_⟩
          show j + 1 ≤ c + 1
          omega
  intro n hn
  rcases key 10 le_rfl with hin | ⟨hact, hcnt⟩
  · obtain ⟨m, rfl⟩ := Nat.le.dest hn
    rw [axisRun_frozen req trig hin m]
    exact hin
  · exfalso
    have := (axisRun_bound req trig (k + 10)).2 hact
    omega

/-- The axis stops exactly at the iteration in which its counter first
reaches 10. -/
theorem axisRun_stop_first (req : Bool) (trig : Nat → Bool) (n : Nat) :
    ((axisRun req trig n).1 = true ∧ (axisRun req trig (n + 1)).1 = false)
      ↔ ((axisRun req trig (n + 1)).2 = 10
          ∧ ∀ m, m ≤ n → (axisRun req trig m).2 ≠ 10) := by
  constructor
  · rintro ⟨ha, hstop⟩
    have hc9 : (axisRun req trig n).2 ≤ 9 := (axisRun_bound req trig n).2 ha
    rcases hs : axisRun req trig n with ⟨a, c⟩
    rw [hs] at ha hc9
    simp only [] at ha hc9
    subst ha
    cases htr : trig n
    · have hmod : (c + 1) % 256 = c + 1 := Nat.mod_eq_of_lt (by omega)
      by_cases h10 : 10 ≤ c + 1
      · have hstep : axisRun req trig (n + 1) = (false, c + 1) := by
          rw [axisRun_succ, hs]
          simp [axis_debounce_step, htr, hmod, h10]
        refine ⟨by rw [hstep]; show c + 1 = 10; omega, ?_⟩
        intro m hm
        have ham : (axisRun req trig m).1 = true := by
          apply axisRun_active_mono req trig hm
          rw [hs]
        have := (axisRun_bound req trig m).2 ham
        omega
      · exfalso
        rw [axisRun_succ, hs] at hstop
        simp [axis_debounce_step, htr, hmod, h10] at hstop
    · exfalso
      rw [axisRun_succ, hs] at hstop
      simp [axis_debounce_step, htr] at hstop
  · rintro ⟨h10, hfresh⟩
    have ha : (axisRun req trig n).1 = true := by
      cases hx : (axisRun req trig n).1
      · exfalso
        have hfr := axisRun_frozen req trig hx 1
        rw [hfr] at h10
        exact hfresh n le_rfl h10
      · rfl
    refine ⟨ha, ?_⟩
    cases hx : (axisRun req trig (n + 1)).1
    · rfl
    · exfalso
      have := (axisRun_bound req trig (n + 1)).2 hx
      omega

/-- The "9 clean samples then a triggered one" scenario: starting active
with counter 0, the counter climbs to 9, the triggered sample resets it to
0, and the axis is still active after the full 10 samples. -/
theorem axisRun_scenario (req : Bool) (trig : Nat → Bool) (n : Nat)
    (ha : (axisRun req trig n).1 = true) (hc : (axisRun req trig n).2 = 0)
    (h9 : ∀ j, j < 9 → trig (n + j) = false) (ht : trig (n + 9) = true) :
    axisRun req trig (n + 10) = (true, 0) := by
  have key : ∀ j, j ≤ 9 → axisRun req trig (n + j) = (true, j) := by
    intro j
    induction j with
    | zero =>
      intro _
      rcases hs : axisRun req trig n with ⟨a, c⟩
      rw [hs] at ha hc
      simp only [] at ha hc
      subst ha
      subst hc
      exact hs
    | succ j ih =>
      intro hj
      have hih := ih (by omega)
      have htr : trig (n + j) = false := h9 j (by omega)
      have hmod : (j + 1) % 256 = j + 1 := Nat.mod_eq_of_lt (by omega)
      have h10 : ¬ 10 ≤ j + 1 := by omega
      rw [show n + (j + 1) = (n + j) + 1 from rfl, axisRun_succ, hih]
      simp [axis_debounce_step, htr, hmod, h10]
  have h9eq := key 9 le_rfl
  rw [show n + 10 = (n + 9) + 1 from rfl, axisRun_succ, h9eq]
  simp [axis_debounce_step, ht]

/-- The emission only writes the port: flags, counters and `out_bits` are
untouched. -/
theorem emit_active_count (cfg : Config) (st : HState) (a : Axis) :
    (emit cfg st).active a = st.active a ∧ (emit cfg st).count a = st.count a := by
  cases a <;> exact ⟨rfl, rfl⟩

/-- The emission does not change `out_bits`. -/
theorem emit_out_bits (cfg : Config) (st : HState) :
    (emit cfg st).out_bits = st.out_bits := rfl

/-- The debounce half of an iteration does not write the port. -/
theorem homing_iter_port (cfg : Config) (s : Settings) (reverse_direction : Bool)
    (st : HState) (raw : Nat) :
    (homing_iter cfg s reverse_direction st raw).port = st.port := rfl

/-- The flag and counter of one axis after an iteration are given by the
single-axis step on that axis's processed limit bit. -/
theorem homing_iter_active_count (cfg : Config) (s : Settings)
    (reverse_direction : Bool) (st : HState) (raw : Nat) (a : Axis) :
    ((homing_iter cfg s reverse_direction st raw).active a,
      (homing_iter cfg s reverse_direction st raw).count a)
      = axis_debounce_step
          (Nat.testBit (processed_limit_bits cfg s reverse_direction raw) (cfg.limitBit a))
          (st.active a, st.count a) := by
  cases a <;> exact axis_debounce_proj _ _ _ _ _ _

/-- Flags and counters after iteration `n + 1` are those computed by the
debounce half; the subsequent emission (if any) does not touch them. -/
theorem homing_state_succ_active_count (cfg : Config) (s : Settings)
    (reverse_direction : Bool) (pins : Nat → Nat) (st0 : HState) (n : Nat) (a : Axis) :
    ((homing_state cfg s reverse_direction pins st0 (n + 1)).active a,
      (homing_state cfg s reverse_direction pins st0 (n + 1)).count a)
      = ((homing_iter cfg s reverse_direction
            (homing_state cfg s reverse_direction pins st0 n) (pins n)).active a,
          (homing_iter cfg s reverse_direction
            (homing_state cfg s reverse_direction pins st0 n) (pins n)).count a) := by
  show ((if homing_done _ then _ else emit cfg _).active a,
    (if homing_done _ then _ else emit cfg _).count a) = _
  split
  · rfl
  · rw [(emit_active_count cfg _ a).1, (emit_active_count cfg _ a).2]

/-- `out_bits` after iteration `n + 1` is the one computed by the debounce
half. -/
theorem homing_state_succ_out_bits (cfg : Config) (s : Settings)
    (reverse_direction : Bool) (pins : Nat → Nat) (st0 : HState) (n : Nat) :
    (homing_state cfg s reverse_direction pins st0 (n + 1)).out_bits
      = (homing_iter cfg s reverse_direction
          (homing_state cfg s reverse_direction pins st0 n) (pins n)).out_bits := by
  show (if homing_done _ then _ else emit cfg _).out_bits = _
  split
  · rfl
  · exact emit_out_bits cfg _

/-- When the done check fires at iteration `n + 1`, the loop returns and
the port is exactly as it was after iteration `n` (no pulse is emitted). -/
theorem homing_state_succ_port_done (cfg : Config) (s : Settings)
    (reverse_direction : Bool) (pins : Nat → Nat) (st0 : HState) (n : Nat)
    (h : homing_done (homing_iter cfg s reverse_direction
          (homing_state cfg s reverse_direction pins st0 n) (pins n)) = true) :
    (homing_state cfg s reverse_direction pins st0 (n + 1)).port
      = (homing_state cfg s reverse_direction pins st0 n).port := by
  show (if homing_done _ then _ else emit cfg _).port = _
  rw [if_pos h]
  exact homing_iter_port cfg s reverse_direction _ _

/-- Correspondence: in a full `homing_cycle` run, each axis's (flag,
counter) pair evolves exactly as the single-axis `axisRun` over that
axis's processed limit-bit stream. -/
theorem homing_run_proj (cfg : Config) (s : Settings)
    (x y z c reverse_direction : Bool) (pins : Nat → Nat) (port0 : Nat)
    (a : Axis) (n : Nat) :
    ((homing_run cfg s x y z c reverse_direction pins port0 n).active a,
      (homing_run cfg s x y z c reverse_direction pins port0 n).count a)
      = axisRun (requested x y z c a)
          (triggered cfg s reverse_direction pins a) n := by
  induction n with
  | zero => cases a <;> rfl
  | succ n ih =>
    rw [axisRun_succ, ← ih]
    have h1 := homing_state_succ_active_count cfg s reverse_direction pins
      (homing_init cfg s x y z c reverse_direction port0) n a
    have h2 := homing_iter_active_count cfg s reverse_direction
      (homing_run cfg s x y z c reverse_direction pins port0 n) (pins n) a
    exact h1.trans h2

/-- testBit through the conditional OR of a single bit. -/
theorem testBit_or_one_shift (b : Bool) (ob k j : Nat) :
    Nat.testBit (if b then ob ||| (1 <<< k) else ob) j
      = (Nat.testBit ob j || (b && decide (k = j))) := by
  cases b
  · simp
  · show Nat.testBit (ob ||| 1 <<< k) j = _
    rw [Nat.testBit_lor, testBit_one_shift]
    simp

/-- testBit through a conditional XOR. -/
theorem testBit_ite_xor (b : Bool) (ob m j : Nat) :
    Nat.testBit (if b then ob ^^^ m else ob) j
      = Bool.xor (Nat.testBit ob j) (b && Nat.testBit m j) := by
  cases b <;> simp [Nat.testBit_xor]

/-- XOR bookkeeping used when updating the `out_bits` invariant. -/
theorem xor_shuffle (p q r : Bool) :
    Bool.xor (Bool.xor p r) (Bool.xor p q) = Bool.xor q r := by
  cases p <;> cases q <;> cases r <;> rfl

/-- At the start of a pass, the bit of `out_bits` at an axis's step
position is (requested) XOR (that axis's step-invert bit). -/
theorem homing_out_bits_stepBit (cfg : Config) (s : Settings) (hwf : Config.WF cfg)
    (x y z c reverse_direction : Bool) (a : Axis) :
    Nat.testBit (homing_out_bits cfg s x y z c reverse_direction) (cfg.stepBit a)
      = Bool.xor (requested x y z c a) (step_invert_bit cfg s a) := by
  obtain ⟨hinj, _, hdm⟩ := hwf
  have hd := hdm a
  have hXY : (cfg.X_STEP_BIT = cfg.Y_STEP_BIT) ↔ False :=
    iff_false_intro fun h => Axis.noConfusion (hinj Axis.X Axis.Y h)
  have hXZ : (cfg.X_STEP_BIT = cfg.Z_STEP_BIT) ↔ False :=
    iff_false_intro fun h => Axis.noConfusion (hinj Axis.X Axis.Z h)
  have hXC : (cfg.X_STEP_BIT = cfg.C_STEP_BIT) ↔ False :=
    iff_false_intro fun h => Axis.noConfusion (hinj Axis.X Axis.C h)
  have hYX : (cfg.Y_STEP_BIT = cfg.X_STEP_BIT) ↔ False :=
    iff_false_intro fun h => Axis.noConfusion (hinj Axis.Y Axis.X h)
  have hYZ : (cfg.Y_STEP_BIT = cfg.Z_STEP_BIT) ↔ False :=
    iff_false_intro fun h => Axis.noConfusion (hinj Axis.Y Axis.Z h)
  have hYC : (cfg.Y_STEP_BIT = cfg.C_STEP_BIT) ↔ False :=
    iff_false_intro fun h => Axis.noConfusion (hinj Axis.Y Axis.C h)
  have hZX : (cfg.Z_STEP_BIT = cfg.X_STEP_BIT) ↔ False :=
    iff_false_intro fun h => Axis.noConfusion (hinj Axis.Z Axis.X h)
  have hZY : (cfg.Z_STEP_BIT = cfg.Y_STEP_BIT) ↔ False :=
    iff_false_intro fun h => Axis.noConfusion (hinj Axis.Z Axis.Y h)
  have hZC : (cfg.Z_STEP_BIT = cfg.C_STEP_BIT) ↔ False :=
    iff_false_intro fun h => Axis.noConfusion (hinj Axis.Z Axis.C h)
  have hCX : (cfg.C_STEP_BIT = cfg.X_STEP_BIT) ↔ False :=
    iff_false_intro fun h => Axis.noConfusion (hinj Axis.C Axis.X h)
  have hCY : (cfg.C_STEP_BIT = cfg.Y_STEP_BIT) ↔ False :=
    iff_false_intro fun h => Axis.noConfusion (hinj Axis.C Axis.Y h)
  have hCZ : (cfg.C_STEP_BIT = cfg.Z_STEP_BIT) ↔ False :=
    iff_false_intro fun h => Axis.noConfusion (hinj Axis.C Axis.Z h)
  cases a <;>
    simp [homing_out_bits, step_invert_bit, requested, Config.stepBit,
      Nat.testBit_xor, testBit_or_one_shift, testBit_ite_xor, hd,
      hXY, hXZ, hXC, hYX, hYZ, hYC, hZX, hZY, hZC, hCX, hCY, hCZ] at hd ⊢

/-- How one iteration's debounce changes the bit of `out_bits` at an
axis's step position: it flips exactly when that axis stops. -/
theorem homing_iter_out_bits_stepBit (cfg : Config) (s : Settings)
    (hwf : Config.WF cfg) (reverse_direction : Bool) (st : HState) (raw : Nat) (a : Axis) :
    Nat.testBit (homing_iter cfg s reverse_direction st raw).out_bits (cfg.stepBit a)
      = Bool.xor (Nat.testBit st.out_bits (cfg.stepBit a))
          (Bool.xor (st.active a)
            ((homing_iter cfg s reverse_direction st raw).active a)) := by
  obtain ⟨hinj, _, _⟩ := hwf
  have hXY : (cfg.X_STEP_BIT = cfg.Y_STEP_BIT) ↔ False :=
    iff_false_intro fun h => Axis.noConfusion (hinj Axis.X Axis.Y h)
  have hXZ : (cfg.X_STEP_BIT = cfg.Z_STEP_BIT) ↔ False :=
    iff_false_intro fun h => Axis.noConfusion (hinj Axis.X Axis.Z h)
  have hXC : (cfg.X_STEP_BIT = cfg.C_STEP_BIT) ↔ False :=
    iff_false_intro fun h => Axis.noConfusion (hinj Axis.X Axis.C h)
  have hYX : (cfg.Y_STEP_BIT = cfg.X_STEP_BIT) ↔ False :=
    iff_false_intro fun h => Axis.noConfusion (hinj Axis.Y Axis.X h)
  have hYZ : (cfg.Y_STEP_BIT = cfg.Z_STEP_BIT) ↔ False :=
    iff_false_intro fun h => Axis.noConfusion (hinj Axis.Y Axis.Z h)
  have hYC : (cfg.Y_STEP_BIT = cfg.C_STEP_BIT) ↔ False :=
    iff_false_intro fun h => Axis.noConfusion (hinj Axis.Y Axis.C h)
  have hZX : (cfg.Z_STEP_BIT = cfg.X_STEP_BIT) ↔ False :=
    iff_false_intro fun h => Axis.noConfusion (hinj Axis.Z Axis.X h)
  have hZY : (cfg.Z_STEP_BIT = cfg.Y_STEP_BIT) ↔ False :=
    iff_false_intro fun h => Axis.noConfusion (hinj Axis.Z Axis.Y h)
  have hZC : (cfg.Z_STEP_BIT = cfg.C_STEP_BIT) ↔ False :=
    iff_false_intro fun h => Axis.noConfusion (hinj Axis.Z Axis.C h)
  have hCX : (cfg.C_STEP_BIT = cfg.X_STEP_BIT) ↔ False :=
    iff_false_intro fun h => Axis.noConfusion (hinj Axis.C Axis.X h)
  have hCY : (cfg.C_STEP_BIT = cfg.Y_STEP_BIT) ↔ False :=
    iff_false_intro fun h => Axis.noConfusion (hinj Axis.C Axis.Y h)
  have hCZ : (cfg.C_STEP_BIT = cfg.Z_STEP_BIT) ↔ False :=
    iff_false_intro fun h => Axis.noConfusion (hinj Axis.C Axis.Z h)
  cases a <;>
    simp [homing_iter, HState.active, Config.stepBit, axis_debounce_out_bits,
      hXY, hXZ, hXC, hYX, hYZ, hYC, hZX, hZY, hZC, hCX, hCY, hCZ,
      Bool.xor_comm]

/-- Invariant of the pulse loop: throughout a pass, the bit of `out_bits`
at an axis's step position is (axis still active) XOR (its step-invert
bit). -/
theorem homing_run_out_bits (cfg : Config) (s : Settings) (hwf : Config.WF cfg)
    (x y z c reverse_direction : Bool) (pins : Nat → Nat) (port0 : Nat)
    (a : Axis) (n : Nat) :
    Nat.testBit (homing_run cfg s x y z c reverse_direction pins port0 n).out_bits
        (cfg.stepBit a)
      = Bool.xor ((homing_run cfg s x y z c reverse_direction pins port0 n).active a)
          (step_invert_bit cfg s a) := by
  induction n with
  | zero =>
    have h0 := homing_out_bits_stepBit cfg s hwf x y z c reverse_direction a
    cases a <;> exact h0
  | succ n ih =>
    have hout : (homing_run cfg s x y z c reverse_direction pins port0 (n + 1)).out_bits
        = (homing_iter cfg s reverse_direction
            (homing_run cfg s x y z c reverse_direction pins port0 n) (pins n)).out_bits :=
      homing_state_succ_out_bits cfg s reverse_direction pins
        (homing_init cfg s x y z c reverse_direction port0) n
    have hiter := homing_iter_out_bits_stepBit cfg s hwf reverse_direction
      (homing_run cfg s x y z c reverse_direction pins port0 n) (pins n) a
    have hact : (homing_run cfg s x y z c reverse_direction pins port0 (n + 1)).active a
        = (homing_iter cfg s reverse_direction
            (homing_run cfg s x y z c reverse_direction pins port0 n) (pins n)).active a :=
      congrArg Prod.fst (homing_state_succ_active_count cfg s reverse_direction pins
        (homing_init cfg s x y z c reverse_direction port0) n a)
    rw [hout, hiter, ih, hact]
    exact xor_shuffle _ _ _

/-- The loop's exit test is exactly "no axis is still active". -/
theorem homing_done_iff (st : HState) :
    homing_done st = true ↔ ∀ a : Axis, st.active a = false := by
  constructor
  · intro h a
    simp only [homing_done, Bool.not_eq_true', Bool.or_eq_false_iff] at h
    cases a
    · exact h.1.1.1
    · exact h.1.1.2
    · exact h.1.2
    · exact h.2
  · intro h
    simp only [homing_done, Bool.not_eq_true', Bool.or_eq_false_iff]
    exact ⟨⟨⟨h Axis.X, h Axis.Y⟩, h Axis.Z⟩, h Axis.C⟩

/-- Under a well-formed config, whether an axis is pulsed is just the bit
of `out_bits` at its step position. -/
theorem axis_pulsed_eq_out_bits (cfg : Config) (hwf : Config.WF cfg)
    (st : HState) (a : Axis) :
    axis_pulsed cfg st a = Nat.testBit st.out_bits (cfg.stepBit a) := by
  obtain ⟨_, hsm, _⟩ := hwf
  unfold axis_pulsed emitted_step_bits
  rw [Nat.testBit_land, hsm a, Bool.and_true]

/-- Port dynamics of one emission, per bit: the masked write drives every
`STEP_MASK` bit to its `out_bits` value (other bits are untouched), and
the toggle returns every `STEP_MASK` bit to 0.  So within one emission an
axis's line changes exactly when its `out_bits` step bit is 1. -/
theorem emit_port_bit (cfg : Config) (st : HState) (j : Nat) :
    (Nat.testBit (emit_assert cfg st).port j
        = (if Nat.testBit cfg.STEP_MASK j then Nat.testBit st.out_bits j
           else Nat.testBit st.port j))
    ∧ (Nat.testBit (emit cfg st).port j
        = (if Nat.testBit cfg.STEP_MASK j then false else Nat.testBit st.port j)) := by
  by_cases hsm : Nat.testBit cfg.STEP_MASK j <;>
    simp [emit, emit_assert, emit_toggle, Nat.testBit_lor, Nat.testBit_ldiff,
      Nat.testBit_land, Nat.testBit_xor, hsm]

/-- While an axis is active, the next counter value is: 0 on a triggered
sample, old counter + 1 on a clean sample. -/
theorem axisRun_count_step (req : Bool) (trig : Nat → Bool) (n : Nat)
    (h : (axisRun req trig n).1 = true) :
    (axisRun req trig (n + 1)).2
      = if trig n then 0 else (axisRun req trig n).2 + 1 := by
  have hc9 : (axisRun req trig n).2 ≤ 9 := (axisRun_bound req trig n).2 h
  rcases hs : axisRun req trig n with ⟨aa, cc⟩
  rw [hs] at h hc9
  simp only [] at h hc9
  subst h
  have hmod : (cc + 1) % 256 = cc + 1 := Nat.mod_eq_of_lt (by omega)
  cases htr : trig n
  · by_cases h10 : 10 ≤ cc + 1 <;>
      (rw [axisRun_succ, hs]; simp [axis_debounce_step, htr, hmod, h10])
  · rw [axisRun_succ, hs]
    simp [axis_debounce_step, htr]

/-- C2: for each axis in a homing pass, the debounce counter starts at 0;
while the axis is active it is reset to 0 by a sample whose processed
(post-reversal, post-invert-mask) limit bit reads triggered and increased
by exactly 1 by a "not triggered" sample; the axis stops iff and exactly
at the iteration in which the counter first reaches 10; and from an active
state with counter 0, nine "not triggered" samples followed by a
"triggered" one reset the counter to 0 and leave the axis active. -/
theorem homing_debounce_counter (cfg : Config) (s : Settings)
    (x y z c reverse_direction : Bool) (pins : Nat → Nat) (port0 : Nat) (a : Axis) :
    (homing_run cfg s x y z c reverse_direction pins port0 0).count a = 0
    ∧ (∀ n, (homing_run cfg s x y z c reverse_direction pins port0 n).active a = true →
        (homing_run cfg s x y z c reverse_direction pins port0 (n + 1)).count a
          = if triggered cfg s reverse_direction pins a n then 0
            else (homing_run cfg s x y z c reverse_direction pins port0 n).count a + 1)
    ∧ (∀ n, ((homing_run cfg s x y z c reverse_direction pins port0 n).active a = true
          ∧ (homing_run cfg s x y z c reverse_direction pins port0 (n + 1)).active a = false)
        ↔ ((homing_run cfg s x y z c reverse_direction pins port0 (n + 1)).count a = 10
            ∧ ∀ m, m ≤ n →
                (homing_run cfg s x y z c reverse_direction pins port0 m).count a ≠ 10))
    ∧ (∀ n, (homing_run cfg s x y z c reverse_direction pins port0 n).active a = true →
        (homing_run cfg s x y z c reverse_direction pins port0 n).count a = 0 →
        (∀ j, j < 9 → triggered cfg s reverse_direction pins a (n + j) = false) →
        triggered cfg s reverse_direction pins a (n + 9) = true →
        ((homing_run cfg s x y z c reverse_direction pins port0 (n + 10)).count a = 0
          ∧ (homing_run cfg s x y z c reverse_direction pins port0 (n + 10)).active a = true)) := by
  have hA : ∀ n, (homing_run cfg s x y z c reverse_direction pins port0 n).active a
      = (axisRun (requested x y z c a) (triggered cfg s reverse_direction pins a) n).1 :=
    fun n => congrArg Prod.fst
      (homing_run_proj cfg s x y z c reverse_direction pins port0 a n)
  have hC : ∀ n, (homing_run cfg s x y z c reverse_direction pins port0 n).count a
      = (axisRun (requested x y z c a) (triggered cfg s reverse_direction pins a) n).2 :=
    fun n => congrArg Prod.snd
      (homing_run_proj cfg s x y z c reverse_direction pins port0 a n)
  refine ⟨?_, ?_, ?_, ?_⟩
  · rw [hC 0]
    rfl
  · intro n hact
    rw [hA n] at hact
    rw [hC (n + 1), hC n]
    exact axisRun_count_step _ _ n hact
  · intro n
    rw [hA n, hA (n + 1), hC (n + 1)]
    have hiff := axisRun_stop_first (requested x y z c a)
      (triggered cfg s reverse_direction pins a) n
    refine hiff.trans ?_
    constructor
    · rintro ⟨h10, hfresh⟩
      exact ⟨h10, fun m hm => by rw [hC m]; exact hfresh m hm⟩
    · rintro ⟨h10, hfresh⟩
      refine ⟨h10, fun m hm => ?_⟩
      rw [← hC m]
      exact hfresh m hm
  · intro n hact hcnt h9 ht
    rw [hA n] at hact
    rw [hC n] at hcnt
    have hrun := axisRun_scenario (requested x y z c a)
      (triggered cfg s reverse_direction pins a) n hact hcnt h9 ht
    rw [hC (n + 10), hA (n + 10), hrun]
    exact ⟨rfl, rfl⟩

/-- C3 (amended): in every iteration of the pulse loop in which some axis
remains active after debounce processing, the emission (masked port write,
then toggle of the same step bits) pulses an axis iff (it is still active
after this iteration's debounce) XOR (its step-invert bit) — in
particular, with a step-invert mask clear of step bits, exactly the axes
still active after debounce processing, not those active at the start of
the iteration; and in the iteration in which the last active axis stops,
the loop returns at once without writing the port. -/
theorem homing_pulse_per_iteration (cfg : Config) (s : Settings)
    (hwf : Config.WF cfg) (x y z c reverse_direction : Bool)
    (pins : Nat → Nat) (port0 : Nat) (n : Nat) :
    (homing_done (homing_iter cfg s reverse_direction
        (homing_run cfg s x y z c reverse_direction pins port0 n) (pins n)) = false →
      ∀ a : Axis,
        axis_pulsed cfg (homing_iter cfg s reverse_direction
            (homing_run cfg s x y z c reverse_direction pins port0 n) (pins n)) a
          = Bool.xor ((homing_iter cfg s reverse_direction
              (homing_run cfg s x y z c reverse_direction pins port0 n) (pins n)).active a)
              (step_invert_bit cfg s a))
    ∧ (homing_done (homing_iter cfg s reverse_direction
        (homing_run cfg s x y z c reverse_direction pins port0 n) (pins n)) = true →
      (homing_run cfg s x y z c reverse_direction pins port0 (n + 1)).port
        = (homing_run cfg s x y z c reverse_direction pins port0 n).port) := by
  constructor
  · intro _ a
    have hout : (homing_run cfg s x y z c reverse_direction pins port0 (n + 1)).out_bits
        = (homing_iter cfg s reverse_direction
            (homing_run cfg s x y z c reverse_direction pins port0 n) (pins n)).out_bits :=
      homing_state_succ_out_bits cfg s reverse_direction pins
        (homing_init cfg s x y z c reverse_direction port0) n
    have hact : (homing_run cfg s x y z c reverse_direction pins port0 (n + 1)).active a
        = (homing_iter cfg s reverse_direction
            (homing_run cfg s x y z c reverse_direction pins port0 n) (pins n)).active a :=
      congrArg Prod.fst (homing_state_succ_active_count cfg s reverse_direction pins
        (homing_init cfg s x y z c reverse_direction port0) n a)
    rw [axis_pulsed_eq_out_bits cfg hwf, ← hout,
      homing_run_out_bits cfg s hwf x y z c reverse_direction pins port0 a (n + 1), hact]
  · intro hdone
    exact homing_state_succ_port_done cfg s reverse_direction pins
      (homing_init cfg s x y z c reverse_direction port0) n hdone

/-- C3 witness: a concrete emitting iteration (iteration 9 of a two-axis
run), instantiating the amended pulse rule for axis Y. -/
theorem homing_pulse_per_iteration_witness :
    homing_done (homing_iter testCfg testS0 false
        (homing_run testCfg testS0 true true false false false cexPins 0 9)
        (cexPins 9)) = false
    ∧ axis_pulsed testCfg (homing_iter testCfg testS0 false
        (homing_run testCfg testS0 true true false false false cexPins 0 9)
        (cexPins 9)) Axis.Y
      = Bool.xor ((homing_iter testCfg testS0 false
          (homing_run testCfg testS0 true true false false false cexPins 0 9)
          (cexPins 9)).active Axis.Y) (step_invert_bit testCfg testS0 Axis.Y) :=
  ⟨by decide,
    (homing_pulse_per_iteration testCfg testS0 ⟨by decide, by decide, by decide⟩
      true true false false false cexPins 0 9).1 (by decide) Axis.Y⟩

/-- C3 counterexample: in this run, at iteration 9, axis Y is active at
the start of the iteration, the iteration does emit (X stays active), yet
Y receives no pulse — its step bit was cleared by the debounce stop in
this same iteration, before the port write.  So "one pulse for each axis
still active at the start of the iteration" is false. -/
theorem homing_pulse_cex :
    (homing_run testCfg testS0 true true false false false cexPins 0 9).y_axis = true
    ∧ homing_done (homing_iter testCfg testS0 false
        (homing_run testCfg testS0 true true false false false cexPins 0 9)
        (cexPins 9)) = false
    ∧ axis_pulsed testCfg (homing_iter testCfg testS0 false
        (homing_run testCfg testS0 true true false false false cexPins 0 9)
        (cexPins 9)) Axis.Y = false := by
  decide

/-- C4 (amended): provided the step/direction invert mask has none of the
four step bits set, then throughout a pass: an axis that was not requested
never becomes active; an inactive axis has its step bit clear in
`out_bits` and is never pulsed (so a stopped axis receives no pulse in the
stopping iteration or any later one); and inactivity is permanent. -/
theorem homing_no_unrequested_pulses (cfg : Config) (s : Settings)
    (hwf : Config.WF cfg) (hinv : ∀ a : Axis, step_invert_bit cfg s a = false)
    (x y z c reverse_direction : Bool) (pins : Nat → Nat) (port0 : Nat) (n : Nat) :
    (∀ a : Axis, requested x y z c a = false →
      (homing_run cfg s x y z c reverse_direction pins port0 n).active a = false)
    ∧ (∀ a : Axis,
        (homing_run cfg s x y z c reverse_direction pins port0 n).active a = false →
        Nat.testBit (homing_run cfg s x y z c reverse_direction pins port0 n).out_bits
            (cfg.stepBit a) = false
          ∧ axis_pulsed cfg
              (homing_run cfg s x y z c reverse_direction pins port0 n) a = false)
    ∧ (∀ (a : Axis) (m : Nat),
        (homing_run cfg s x y z c reverse_direction pins port0 n).active a = false →
        (homing_run cfg s x y z c reverse_direction pins port0 (n + m)).active a = false) := by
  have hA : ∀ (a : Axis) (p : Nat),
      (homing_run cfg s x y z c reverse_direction pins port0 p).active a
        = (axisRun (requested x y z c a) (triggered cfg s reverse_direction pins a) p).1 :=
    fun a p => congrArg Prod.fst
      (homing_run_proj cfg s x y z c reverse_direction pins port0 a p)
  refine ⟨?_, ?_, ?_⟩
  · intro a hreq
    rw [hA a n, hreq, axisRun_false_req]
  · intro a hina
    have hbit := homing_run_out_bits cfg s hwf x y z c reverse_direction pins port0 a n
    rw [hina, hinv a, Bool.xor_false] at hbit
    refine ⟨hbit, ?_⟩
    rw [axis_pulsed_eq_out_bits cfg hwf, hbit]
  · intro a m hina
    rw [hA a n] at hina
    rw [hA a (n + m), axisRun_frozen _ _ hina m]
    exact hina

/-- C4 witness: a one-axis run (only X requested) with invert masks zero:
Y is inactive and unpulsed at iteration 3. -/
theorem homing_no_unrequested_pulses_witness :
    (homing_run testCfg testS0 true false false false false cexPins 0 3).active Axis.Y = false
    ∧ axis_pulsed testCfg
        (homing_run testCfg testS0 true false false false false cexPins 0 3) Axis.Y = false := by
  have h := homing_no_unrequested_pulses testCfg testS0
    ⟨by decide, by decide, by decide⟩ (by decide) true false false false false cexPins 0 3
  exact ⟨h.1 Axis.Y (by decide), (h.2.1 Axis.Y (h.1 Axis.Y (by decide))).2⟩

/-- C4 counterexample: with only X requested but Y's step bit set in the
step/direction invert mask, iteration 0 emits (X still active) and the
emission pulses Y — an axis outside the requested subset.  So "no axis
outside S is ever pulsed, regardless of the invert-mask configuration" is
false. -/
theorem homing_unrequested_pulse_cex :
    requested true false false false Axis.Y = false
    ∧ homing_done (homing_iter testCfg testS2 false
        (homing_run testCfg testS2 true false false false false cexPins 0 0)
        (cexPins 0)) = false
    ∧ axis_pulsed testCfg
        (homing_run testCfg testS2 true false false false false cexPins 0 1) Axis.Y = true := by
  decide

/-- C5: the direction bits written to the stepping port before the pulse
loop equal `DIRECTION_MASK XOR (DIRECTION_MASK if reversed, else 0) XOR
invert_mask_stepdir`, restricted to `DIRECTION_MASK` — an expression
independent of which axes are active; the setup write touches no bit
outside `DIRECTION_MASK`; and neither loop write (neither the masked port
write nor the toggle) changes any bit outside `STEP_MASK`. -/
theorem homing_direction_bits (cfg : Config) (s : Settings) (hwf : Config.WF cfg)
    (x y z c reverse_direction : Bool) (port0 : Nat) :
    ((homing_init cfg s x y z c reverse_direction port0).port &&& cfg.DIRECTION_MASK
      = (cfg.DIRECTION_MASK
          ^^^ (if reverse_direction then cfg.DIRECTION_MASK else 0)
          ^^^ s.invert_mask_stepdir) &&& cfg.DIRECTION_MASK)
    ∧ (∀ j, Nat.testBit cfg.DIRECTION_MASK j = false →
        Nat.testBit (homing_init cfg s x y z c reverse_direction port0).port j
          = Nat.testBit port0 j)
    ∧ (∀ (st : HState) (j : Nat), Nat.testBit cfg.STEP_MASK j = false →
        Nat.testBit (emit_assert cfg st).port j = Nat.testBit st.port j
          ∧ Nat.testBit (emit cfg st).port j = Nat.testBit st.port j) := by
  obtain ⟨hinj, hsm, hdm⟩ := hwf
  refine ⟨?_, ?_, ?_⟩
  · apply Nat.eq_of_testBit_eq
    intro j
    rw [Nat.testBit_land, Nat.testBit_land]
    cases hdj : Nat.testBit cfg.DIRECTION_MASK j
    · simp
    · have hX : (cfg.X_STEP_BIT = j) ↔ False := iff_false_intro fun h => by
        have hx := hdm Axis.X
        rw [show cfg.stepBit Axis.X = cfg.X_STEP_BIT from rfl, h, hdj] at hx
        exact Bool.noConfusion hx
      have hY : (cfg.Y_STEP_BIT = j) ↔ False := iff_false_intro fun h => by
        have hx := hdm Axis.Y
        rw [show cfg.stepBit Axis.Y = cfg.Y_STEP_BIT from rfl, h, hdj] at hx
        exact Bool.noConfusion hx
      have hZ : (cfg.Z_STEP_BIT = j) ↔ False := iff_false_intro fun h => by
        have hx := hdm Axis.Z
        rw [show cfg.stepBit Axis.Z = cfg.Z_STEP_BIT from rfl, h, hdj] at hx
        exact Bool.noConfusion hx
      have hC : (cfg.C_STEP_BIT = j) ↔ False := iff_false_intro fun h => by
        have hx := hdm Axis.C
        rw [show cfg.stepBit Axis.C = cfg.C_STEP_BIT from rfl, h, hdj] at hx
        exact Bool.noConfusion hx
      cases reverse_direction <;>
        simp [homing_init, homing_out_bits, Nat.testBit_lor, Nat.testBit_ldiff,
          Nat.testBit_land, Nat.testBit_xor, testBit_or_one_shift, hdj,
          hX, hY, hZ, hC]
  · intro j hdj
    simp [homing_init, Nat.testBit_lor, Nat.testBit_ldiff, Nat.testBit_land, hdj]
  · intro st j hsmj
    constructor
    · rw [(emit_port_bit cfg st j).1]
      simp [hsmj]
    · rw [(emit_port_bit cfg st j).2]
      simp [hsmj]

/-- C5 witness: the direction-bit identity at a concrete reversed pass. -/
theorem homing_direction_bits_witness :
    (homing_init testCfg testS0 true false true false true 170).port
        &&& testCfg.DIRECTION_MASK
      = (testCfg.DIRECTION_MASK
          ^^^ (if true then testCfg.DIRECTION_MASK else 0)
          ^^^ testS0.invert_mask_stepdir) &&& testCfg.DIRECTION_MASK :=
  (homing_direction_bits testCfg testS0 ⟨by decide, by decide, by decide⟩
    true false true false true 170).1

/-- C6: on a reverse pass the sampled limit byte is XORed with
`LIMIT_MASK` and then with the global limit invert mask, in that order; on
a forward pass only the invert mask is applied; and every per-axis
debounce decision of an iteration reads exactly the processed byte (the
axis flag and counter after the iteration are a function of it). -/
theorem processed_limit_bits_order (cfg : Config) (s : Settings) (raw : Nat) :
    processed_limit_bits cfg s true raw = (raw ^^^ cfg.LIMIT_MASK) ^^^ s.invert_mask_limit
    ∧ processed_limit_bits cfg s false raw = raw ^^^ s.invert_mask_limit
    ∧ ∀ (reverse_direction : Bool) (st : HState) (a : Axis),
        ((homing_iter cfg s reverse_direction st raw).active a,
          (homing_iter cfg s reverse_direction st raw).count a)
          = axis_debounce_step
              (Nat.testBit (processed_limit_bits cfg s reverse_direction raw)
                (cfg.limitBit a))
              (st.active a, st.count a) :=
  ⟨rfl, rfl, fun reverse_direction st a =>
    homing_iter_active_count cfg s reverse_direction st raw a⟩

/-- C7: `limits_go_home` performs, in this strict order and with no
branching: planner synchronize, stepper enable, an approach pass with Z
alone (Z only if configured; X, Y, C never), an approach pass with the
configured X, Y and C axes (never Z), a retreat pass with all configured
axes, and the machine-zero position commit. -/
theorem limits_go_home_order (s : Settings) (home_x home_y home_z home_c : Bool)
    (pos0 : SysPosition) :
    limits_go_home_run s home_x home_y home_z home_c pos0
      = ([HomingAction.plan_synchronize,
          HomingAction.st_enable,
          HomingAction.homing_cycle false false home_z false false
            (FEEDRATE_TO_PERIOD_US s s.default_seek_rate),
          HomingAction.homing_cycle home_x home_y false home_c false
            (FEEDRATE_TO_PERIOD_US s s.default_seek_rate),
          HomingAction.homing_cycle home_x home_y home_z home_c true
            (FEEDRATE_TO_PERIOD_US s s.default_feed_rate),
          HomingAction.set_machine_zero],
        { x := 0, y := 0, z := 0, c := 0 }) := rfl

/-- C1 (amended): `limits_go_home` ends by writing 0 to all four
machine-position coordinates, regardless of which axes were configured for
homing and of the previous position. -/
theorem limits_go_home_zeroes_all (s : Settings) (home_x home_y home_z home_c : Bool)
    (pos0 : SysPosition) :
    (limits_go_home_run s home_x home_y home_z home_c pos0).2
      = { x := 0, y := 0, z := 0, c := 0 } := rfl

/-- C1 counterexample: homing {X,Y,Z} (C not configured) from a position
with C = 5 ends with C = 0, not 5 — the C coordinate is not left
unchanged. -/
theorem limits_go_home_c_cex :
    (limits_go_home_run testS0 true true true false
        { x := 1, y := 2, z := 3, c := 5 }).2.c = 0
    ∧ (5 : Int) ≠ 0 := ⟨rfl, by decide⟩

/-- C8: the pulse loop reaches its return iff every requested axis
eventually sees 10 consecutive iterations whose processed limit bit reads
"not triggered"; when some requested axis never does, the loop runs
forever — there is no timeout or abort path. -/
theorem homing_termination_iff (cfg : Config) (s : Settings)
    (x y z c reverse_direction : Bool) (pins : Nat → Nat) (port0 : Nat) :
    homing_terminates cfg s x y z c reverse_direction pins port0
      ↔ ∀ a : Axis, requested x y z c a = true →
          ∃ k, ∀ j, j < 10 →
            triggered cfg s reverse_direction pins a (k + j) = false := by
  have hA : ∀ (a : Axis) (p : Nat),
      (homing_run cfg s x y z c reverse_direction pins port0 p).active a
        = (axisRun (requested x y z c a) (triggered cfg s reverse_direction pins a) p).1 :=
    fun a p => congrArg Prod.fst
      (homing_run_proj cfg s x y z c reverse_direction pins port0 a p)
  constructor
  · rintro ⟨n, hn⟩ a hreq
    have hall := (homing_done_iff _).mp hn a
    rw [hA a (n + 1), hreq] at hall
    obtain ⟨k, _, hw⟩ := axisRun_stop_window _ (n + 1) hall
    exact ⟨k, hw⟩
  · intro h
    have key : ∀ a : Axis, ∃ m, ∀ p, m ≤ p →
        (homing_run cfg s x y z c reverse_direction pins port0 p).active a = false := by
      intro a
      cases hreq : requested x y z c a
      · refine ⟨0, fun p _ => ?_⟩
        rw [hA a p, hreq, axisRun_false_req]
      · obtain ⟨k, hw⟩ := h a hreq
        refine ⟨k + 10, fun p hp => ?_⟩
        rw [hA a p]
        exact axisRun_window_stop _ _ k hw p hp
    obtain ⟨mX, hX⟩ := key Axis.X
    obtain ⟨mY, hY⟩ := key Axis.Y
    obtain ⟨mZ, hZ⟩ := key Axis.Z
    obtain ⟨mC, hC⟩ := key Axis.C
    refine ⟨mX + mY + mZ + mC, (homing_done_iff _).mpr ?_⟩
    intro a
    cases a
    · exact hX _ (by omega)
    · exact hY _ (by omega)
    · exact hZ _ (by omega)
    · exact hC _ (by omega)

/-- C9: the period handed to `homing_cycle` is
`(60 / (rate * steps_per_mm[X])) * 1e6` microseconds, with the seek rate
on an approach pass and the feed rate on a retreat pass; at seek rate 100
and 80 steps/mm this is 7500 µs, and with a 10 µs pulse width the
inter-pulse hold is 7490 µs. -/
theorem feedrate_period (s : Settings) (x y z c : Bool) :
    approach_limit_switch s x y z c
      = HomingAction.homing_cycle x y z c false
          (60 / (s.default_seek_rate * s.steps_per_mm_x) * 1000000)
    ∧ leave_limit_switch s x y z c
      = HomingAction.homing_cycle x y z c true
          (60 / (s.default_feed_rate * s.steps_per_mm_x) * 1000000)
    ∧ FEEDRATE_TO_PERIOD_US testS0 testS0.default_seek_rate = 7500
    ∧ step_delay 7500 testS0.pulse_microseconds = 7490 := by
  refine ⟨rfl, rfl, ?_, ?_⟩
  · norm_num [FEEDRATE_TO_PERIOD_US, testS0]
  · decide

/-- C10: `step_delay` is the wrapping unsigned 32-bit difference: the true
difference when the pulse width is at most the period, and a wrap-around
value of `2^32 - (width - period)` — enormous, never zero, at least
`2^32 - 255` for any byte-sized width — whenever the width exceeds the
period; nothing fails or saturates. -/
theorem step_delay_wraps (p w : Nat) (hp : p < 2 ^ 32) (hw : w < 2 ^ 32) :
    (w ≤ p → step_delay p w = p - w)
    ∧ (p < w → step_delay p w = 2 ^ 32 - (w - p) ∧ 0 < step_delay p w)
    ∧ (p < w → w ≤ 255 → 2 ^ 32 - 255 ≤ step_delay p w) := by
  have h32 : (2 : Nat) ^ 32 = 4294967296 := by norm_num
  unfold step_delay
  rw [h32] at hp hw ⊢
  refine ⟨fun hle => ?_, fun hlt => ⟨?_, ?_⟩, fun hlt h255 => ?_⟩ <;> omega

/-- C10 witness: a 10 µs pulse width against a 5 µs period wraps to
`2^32 - 5`. -/
theorem step_delay_wraps_witness :
    (5 : Nat) < 2 ^ 32 ∧ (10 : Nat) < 2 ^ 32
    ∧ step_delay 5 10 = 2 ^ 32 - (10 - 5) :=
  ⟨by norm_num, by norm_num,
    ((step_delay_wraps 5 10 (by norm_num) (by norm_num)).2.1 (by norm_num)).1⟩

/-- C2 witness: X alone, with nine clean samples then a triggered one: the
counter is back to 0 after sample 9 and the axis is still active. -/
theorem homing_debounce_counter_witness :
    (homing_run testCfg testS0 true false false false false wPins 0 10).count Axis.X = 0
    ∧ (homing_run testCfg testS0 true false false false false wPins 0 10).active Axis.X
        = true :=
  (homing_debounce_counter testCfg testS0 true false false false false wPins 0
    Axis.X).2.2.2 0 (by decide) (by decide) (by decide) (by decide)
